import Mathlib

/-!
Shallow embedding of the nakurity-backend session/rate-limit/schedule core.

Sources embedded:
* `src/api/session-store.js` — in-memory session table, fingerprint
  generation, validation and expiry sweep.
* `src/api/session.js` — the HTTP handler's claim / heartbeat / release
  branches.
* `src/unnamed/part_000` — the vision endpoint: session-key validation,
  fixed-window rate limiter, model-call gating.
* `src/api/ncom/schedule.js` — both the legacy and the current schedule
  handlers (the file contains two versions of the endpoint).

Modelling conventions: JavaScript `Map`s become association lists keyed by
`String`, preserving insertion order (`Map.set` overwrites in place or
appends; `Map.delete` removes; iteration follows insertion order).
`Date.now()` becomes an explicit `now : Nat` (epoch ms); all `Date.now()`
calls inside one request observe the same instant. Randomness
(`crypto.randomBytes` keys, `Math.random` intervals and shuffles) becomes
explicit parameters. The SHA-256 digest is an abstract `hash` parameter —
the code feeds it the plain concatenation `ip + userAgent`.
-/

namespace Nakurity

/-- Association-list lookup: `Map.get` (keys are unique in a JS Map, so the
first hit is the hit). -/
def mapGet {α : Type} : List (String × α) → String → Option α
  | [], _ => none
  | (k, v) :: rest, key => if k = key then some v else mapGet rest key

/-- Association-list write, modelling `Map.set`: overwrite in place when the
key is present, append otherwise. -/
def mapSet {α : Type} : List (String × α) → String → α → List (String × α)
  | [], key, v => [(key, v)]
  | (k, w) :: rest, key, v =>
      if k = key then (key, v) :: rest else (k, w) :: mapSet rest key v

/-- Association-list removal, modelling `Map.delete`. -/
def mapDel {α : Type} : List (String × α) → String → List (String × α)
  | [], _ => []
  | (k, v) :: rest, key => if k = key then rest else (k, v) :: mapDel rest key

/-! ## Session store (`src/api/session-store.js`) -/

/-- One entry of the in-memory session table. -/
structure Session where
  fingerprint : String
  createdAt : Nat
  expiresAt : Nat
  lastHeartbeat : Nat
  claimed : Bool
deriving Repr, DecidableEq

/-- The `sessions` Map, in insertion order. -/
abbrev Store := List (String × Session)

/-- Source constant `SESSION_TIMEOUT = 5 * 60 * 1000` ms. -/
def SESSION_TIMEOUT : Nat := 5 * 60 * 1000

/-- Source constant `MAX_SESSIONS = 100`. -/
def MAX_SESSIONS : Nat := 100

/-- The source's `generateFingerprint`: SHA-256 of the undelimited concatenation
`ip + userAgent`. The digest is abstracted as `hash`. -/
def generateFingerprint (hash : String → String) (ip userAgent : String) :
    String :=
  hash (ip ++ userAgent)

/-- The sweep `cleanupExpiredSessions`: delete every session with
`now > expiresAt`. -/
def cleanupExpiredSessions (now : Nat) (s : Store) : Store :=
  s.filter (fun kv => decide (now ≤ kv.2.expiresAt))

/-- Outcome of `validateSession`. -/
inductive ValidateResult where
  | notFound
  | expired
  | fingerprintMismatch
  | valid
deriving Repr, DecidableEq

/-- The source's `validateSession(sessionKey, req)`: absent key, lazily-purged expiry,
fingerprint check. Returns the verdict and the (possibly purged) table. -/
def validateSession (sessionKey fp : String) (now : Nat) (s : Store) :
    ValidateResult × Store :=
  match mapGet s sessionKey with
  | none => (.notFound, s)
  | some sess =>
      if now > sess.expiresAt then (.expired, mapDel s sessionKey)
      else if sess.fingerprint ≠ fp then (.fingerprintMismatch, s)
      else (.valid, s)

/-! ## Session HTTP handler (`src/api/session.js`)

`cleanupExpiredSessions()` runs at the top of the handler, before any
branch dispatch, so each modelled operation sweeps first. -/

/-- The claim branch's reuse loop: first table entry (in insertion order)
with this fingerprint that satisfies `Date.now() < session.expiresAt`. -/
def findLive (fp : String) (now : Nat) : Store → Option (String × Session)
  | [] => none
  | (k, sess) :: rest =>
      if sess.fingerprint = fp ∧ now < sess.expiresAt then some (k, sess)
      else findLive fp now rest

/-- Response of the claim branch. -/
inductive ClaimResponse where
  | capacity
  | reused (key : String) (expiresAt : Nat)
  | created (key : String) (expiresAt : Nat)
deriving Repr, DecidableEq

/-- HTTP status of a claim response. -/
def ClaimResponse.status : ClaimResponse → Nat
  | .capacity => 429
  | .reused _ _ => 200
  | .created _ _ => 200

/-- The claim branch, `GET /api/session/claim`: sweep, then capacity check against the whole
table, then the fingerprint-reuse loop, then creation with a fresh random
key (`newKey` stands for `generateSessionKey()`). -/
def claimHandler (now : Nat) (fp newKey : String) (s : Store) :
    ClaimResponse × Store :=
  let s := cleanupExpiredSessions now s
  if s.length ≥ MAX_SESSIONS then (.capacity, s)
  else
    match findLive fp now s with
    | some (k, sess) => (.reused k sess.expiresAt, s)
    | none =>
        let sess : Session :=
          { fingerprint := fp, createdAt := now,
            expiresAt := now + SESSION_TIMEOUT, lastHeartbeat := now,
            claimed := true }
        (.created newKey (now + SESSION_TIMEOUT), mapSet s newKey sess)

/-- Response of the heartbeat branch. -/
inductive HeartbeatResponse where
  | missingHeader
  | notFound
  | mismatch
  | ok (expiresAt : Nat)
deriving Repr, DecidableEq

/-- HTTP status of a heartbeat response. -/
def HeartbeatResponse.status : HeartbeatResponse → Nat
  | .missingHeader => 400
  | .notFound => 404
  | .mismatch => 403
  | .ok _ => 200

/-- The heartbeat branch, `POST /api/session/heartbeat`: sweep, header check, `sessions.get`,
fingerprint check, then extend `expiresAt` and `lastHeartbeat`. -/
def heartbeatHandler (now : Nat) (sessionKey : Option String) (fp : String)
    (s : Store) : HeartbeatResponse × Store :=
  let s := cleanupExpiredSessions now s
  match sessionKey with
  | none => (.missingHeader, s)
  | some key =>
      match mapGet s key with
      | none => (.notFound, s)
      | some sess =>
          if sess.fingerprint ≠ fp then (.mismatch, s)
          else
            let sess' :=
              { sess with lastHeartbeat := now,
                          expiresAt := now + SESSION_TIMEOUT }
            (.ok (now + SESSION_TIMEOUT), mapSet s key sess')

/-- Response of the release branch. -/
inductive ReleaseResponse where
  | missingHeader
  | notFound
  | mismatch
  | released
deriving Repr, DecidableEq

/-- HTTP status of a release response. -/
def ReleaseResponse.status : ReleaseResponse → Nat
  | .missingHeader => 400
  | .notFound => 404
  | .mismatch => 403
  | .released => 200

/-- The release branch, `POST /api/session/release`: sweep, header check, `sessions.get`,
fingerprint check, delete on match. -/
def releaseHandler (now : Nat) (sessionKey : Option String) (fp : String)
    (s : Store) : ReleaseResponse × Store :=
  let s := cleanupExpiredSessions now s
  match sessionKey with
  | none => (.missingHeader, s)
  | some key =>
      match mapGet s key with
      | none => (.notFound, s)
      | some sess =>
          if sess.fingerprint = fp then (.released, mapDel s key)
          else (.mismatch, s)

/-! ## Vision endpoint (`src/unnamed/part_000`) -/

/-- One rate-limit window entry: `{ count, resetAt }`. -/
structure RateWindow where
  count : Nat
  resetAt : Nat
deriving Repr, DecidableEq

/-- The `rateLimitMap`. -/
abbrev RLState := List (String × RateWindow)

/-- Source constant `RATE_LIMIT = 10` requests per window. -/
def RATE_LIMIT : Nat := 10

/-- Source constant `RATE_WINDOW = 60 * 1000` ms. -/
def RATE_WINDOW : Nat := 60 * 1000

/-- The limiter `checkRateLimit(identifier)`: fetch-or-default the window, reset it when
`now > resetAt`, reject without incrementing at `count >= RATE_LIMIT`,
otherwise increment and store. A fetched window is aliased with the stored
object, so a reset performed on an existing entry persists even on the
rejecting path (with `RATE_LIMIT > 0` that path never follows a reset). -/
def checkRateLimit (now : Nat) (identifier : String) (m : RLState) :
    Bool × RLState :=
  let stored := mapGet m identifier
  let ul := stored.getD { count := 0, resetAt := now + RATE_WINDOW }
  let ul :=
    if now > ul.resetAt then
      { count := 0, resetAt := now + RATE_WINDOW }
    else ul
  if ul.count ≥ RATE_LIMIT then
    (false, if stored.isSome then mapSet m identifier ul else m)
  else
    (true, mapSet m identifier { ul with count := ul.count + 1 })

/-- What the vision handler did with a POST: its HTTP status, whether
`checkRateLimit` ran, whether the external Groq model was invoked, and the
two tables afterwards. -/
structure VisionResult where
  status : Nat
  rateLimiterCalled : Bool
  modelCalled : Bool
  sessions : Store
  limits : RLState
deriving Repr, DecidableEq

/-- The vision handler for a POST request: validate the `X-Session-Key`
header (missing key or failed `validateSession` → 401), then rate-limit the
client identifier (rejected → 429), then require the `image` field (400),
then call the external model. The model's reply is outside the embedding;
`modelCalled` records that the call was reached. This handler never runs
`cleanupExpiredSessions`. -/
def visionHandler (now : Nat) (sessionKey : Option String) (fp clientId : String)
    (hasImage : Bool) (s : Store) (m : RLState) : VisionResult :=
  match sessionKey with
  | none =>
      { status := 401, rateLimiterCalled := false, modelCalled := false,
        sessions := s, limits := m }
  | some key =>
      let (verdict, s) := validateSession key fp now s
      if verdict ≠ .valid then
        { status := 401, rateLimiterCalled := false, modelCalled := false,
          sessions := s, limits := m }
      else
        let (ok, m) := checkRateLimit now clientId m
        if ¬ ok then
          { status := 429, rateLimiterCalled := true, modelCalled := false,
            sessions := s, limits := m }
        else if ¬ hasImage then
          { status := 400, rateLimiterCalled := true, modelCalled := false,
            sessions := s, limits := m }
        else
          { status := 200, rateLimiterCalled := true, modelCalled := true,
            sessions := s, limits := m }

/-! ## Schedule endpoint (`src/api/ncom/schedule.js`)

The file holds two versions of the endpoint: a legacy handler whose
`loadSchedule` falls back to a built-in default schedule whenever the file
is missing or unreadable, and the current handler whose `loadSchedule`
returns `null` in those cases (the handler then answers 500) and which
migrates legacy bare-array files to the `{ schedule, nextRefresh }` object
shape. -/

/-- One `{ videoIndex, delay }` entry. -/
structure ScheduleEntry where
  videoIndex : Nat
  delay : Nat
deriving Repr, DecidableEq

/-- What `data/ncom/videoSchedule.json` holds on disk, as seen through
`fs.existsSync` / `fs.readFileSync` / `JSON.parse`: absent, present but
throwing on read or parse, a legacy bare array, the object shape (with
`nextRefresh` absent or non-numeric modelled as `none`), or some other
parsed shape. -/
inductive FileState where
  | missing
  | unreadable
  | legacyArr (items : List ScheduleEntry)
  | obj (schedule : List ScheduleEntry) (nextRefresh : Option Nat)
  | badShape
deriving Repr, DecidableEq

/-- The legacy handler's default schedule. -/
def defaultSchedule : List ScheduleEntry :=
  [{ videoIndex := 0, delay := 45000 }, { videoIndex := 1, delay := 120000 }]

/-- The legacy `loadSchedule`: parsed file contents when the file exists and
reads cleanly, the built-in default schedule otherwise. It never writes. -/
def legacyLoadSchedule : FileState → FileState
  | .missing => .legacyArr defaultSchedule
  | .unreadable => .legacyArr defaultSchedule
  | fs => fs

/-- The legacy handler's GET branch: 200 with whatever `loadSchedule`
produced, file untouched. -/
def legacyGetHandler (fs : FileState) : Nat × FileState × FileState :=
  (200, legacyLoadSchedule fs, fs)

/-- The current `loadSchedule`: `null` (`none`) when the file is missing,
unreadable or of an unknown shape; a legacy array is wrapped into the
object shape with `nextRefresh = now + pickRandomInterval()` and persisted;
an object whose `nextRefresh` is falsy or not a number gets a fresh one,
persisted. Returns the loaded document and the file afterwards. `interval`
stands for `pickRandomInterval()`. -/
def loadSchedule (now interval : Nat) (fs : FileState) :
    Option (List ScheduleEntry × Nat) × FileState :=
  match fs with
  | .missing => (none, fs)
  | .unreadable => (none, fs)
  | .badShape => (none, fs)
  | .legacyArr items =>
      (some (items, now + interval), .obj items (some (now + interval)))
  | .obj sched nextRefresh =>
      match nextRefresh with
      | none =>
          (some (sched, now + interval), .obj sched (some (now + interval)))
      | some n =>
          if n = 0 then
            (some (sched, now + interval), .obj sched (some (now + interval)))
          else (some (sched, n), fs)

/-- HTTP method of a schedule request. -/
inductive Method where
  | get
  | post (body : Option (List ScheduleEntry))
deriving DecidableEq

/-- The current handler: load (500 when `null`), rotate with a shuffle when
`now ≥ nextRefresh` (the shuffled permutation is the parameter `shuffled`,
and a fresh `nextRefresh` uses `interval2`), then answer the GET with the
document or persist the POSTed array. Returns status, response document (for
GET) and the file afterwards. -/
def scheduleHandler (now interval interval2 : Nat)
    (shuffled : List ScheduleEntry → List ScheduleEntry) (method : Method)
    (fs : FileState) : Nat × Option (List ScheduleEntry × Nat) × FileState :=
  match loadSchedule now interval fs with
  | (none, fs) => (500, none, fs)
  | (some (sched, nextRefresh), fs) =>
      let (sched, nextRefresh, fs) :=
        if now ≥ nextRefresh then
          let sched := shuffled sched
          (sched, now + interval2, .obj sched (some (now + interval2)))
        else (sched, nextRefresh, fs)
      match method with
      | .get => (200, some (sched, nextRefresh), fs)
      | .post body =>
          match body with
          | none => (400, none, fs)
          | some items =>
              (200, some (items, now + interval2),
               .obj items (some (now + interval2)))

/-! ## Derived observations and concrete states used by the theorems -/

/-- The claim branch's reuse condition as a Boolean predicate on one table
entry: same fingerprint and `Date.now() < expiresAt`. -/
def liveFor (fp : String) (now : Nat) (kv : String × Session) : Bool :=
  decide (kv.2.fingerprint = fp ∧ now < kv.2.expiresAt)

/-- Number of table entries with this fingerprint that are live in the
sense of the reuse loop (`now < expiresAt`). -/
def countLive (fp : String) (now : Nat) (s : Store) : Nat :=
  (s.filter (liveFor fp now)).length

/-- Number of table entries with this fingerprint that the sweep would
keep, i.e. not expired in the sense `now > expiresAt`. -/
def countNonExpired (fp : String) (now : Nat) (s : Store) : Nat :=
  (s.filter (fun kv => decide (kv.2.fingerprint = fp ∧ now ≤ kv.2.expiresAt))).length

/-- Number of non-expired entries in the whole table: the table size the
capacity check actually sees, since the sweep runs first. -/
def nonExpiredCount (now : Nat) (s : Store) : Nat :=
  (cleanupExpiredSessions now s).length

/-- The rate-limiter map after `n` `checkRateLimit` calls for one
identifier, all at the same instant, starting from the empty map. -/
def iterCheck (now : Nat) (identifier : String) : Nat → RLState
  | 0 => []
  | n + 1 => (checkRateLimit now identifier (iterCheck now identifier n)).2

/-- Rate-limiter states reachable from the initial empty map by
`checkRateLimit` calls at arbitrary instants. -/
inductive RLReachable : RLState → Prop where
  | init : RLReachable []
  | step (now : Nat) (identifier : String) (m : RLState)
      (h : RLReachable m) : RLReachable (checkRateLimit now identifier m).2

/-- A table of `MAX_SESSIONS` sessions, all live at instant 5, with
pairwise distinct fingerprints `fp0`, …, `fp99`. -/
def fullStore : Store :=
  (List.range 100).map
    (fun i => ("k" ++ toString i,
      { fingerprint := "fp" ++ toString i, createdAt := 0, expiresAt := 1000,
        lastHeartbeat := 0, claimed := true }))

/-- A one-session table whose session sits exactly at its expiry instant:
at `now = 100` it is not expired (`now > expiresAt` is false, the sweep
keeps it) yet not reusable (`now < expiresAt` is false). -/
def boundaryStore : Store :=
  [("k1", { fingerprint := "fp", createdAt := 0, expiresAt := 100,
            lastHeartbeat := 0, claimed := true })]

/-- A table of `MAX_SESSIONS − 1` sessions, all live at instant 5, with
pairwise distinct fingerprints. -/
def store99 : Store :=
  (List.range 99).map
    (fun i => ("k" ++ toString i,
      { fingerprint := "fp" ++ toString i, createdAt := 0, expiresAt := 1000,
        lastHeartbeat := 0, claimed := true }))

/-- A table of `MAX_SESSIONS` sessions of which, at instant 1000, only the
first is non-expired: raw size equals the capacity while only one
non-expired session exists. -/
def mixedStore : Store :=
  ("live0", { fingerprint := "fpA", createdAt := 0, expiresAt := 10000000,
              lastHeartbeat := 0, claimed := true }) ::
  (List.range 99).map
    (fun i => ("e" ++ toString i,
      { fingerprint := "fpE" ++ toString i, createdAt := 0, expiresAt := 10,
        lastHeartbeat := 0, claimed := true }))

/-! ## Association-list lemmas -/

theorem mapGet_mapSet {α : Type} (m : List (String × α)) (key key2 : String) (v : α) :
    mapGet (mapSet m key v) key2 = if key = key2 then some v else mapGet m key2 := by
  induction m with
  | nil => by_cases h : key = key2 <;> simp [mapSet, mapGet, h]
  | cons hd tl ih =>
      obtain ⟨k, w⟩ := hd
      by_cases hk : k = key
      · subst hk
        by_cases h2 : k = key2 <;> simp [mapSet, mapGet, h2]
      · by_cases h2 : k = key2
        · subst h2
          have hne : ¬ key = k := fun h => hk h.symm
          simp [mapSet, mapGet, hk, hne]
        · simp [mapSet, mapGet, hk, h2, ih]

theorem length_mapSet_le {α : Type} (m : List (String × α)) (key : String) (v : α) :
    (mapSet m key v).length ≤ m.length + 1 := by
  induction m with
  | nil => simp [mapSet]
  | cons hd tl ih =>
      obtain ⟨k, w⟩ := hd
      by_cases hk : k = key
      · simp [mapSet, hk]
      · simp only [mapSet, if_neg hk, List.length_cons]
        omega

theorem mem_mapSet {α : Type} {m : List (String × α)} {key : String} {v : α}
    {kv : String × α} (h : kv ∈ mapSet m key v) : kv ∈ m ∨ kv = (key, v) := by
  induction m with
  | nil => simp [mapSet] at h; simp [h]
  | cons hd tl ih =>
      obtain ⟨k, w⟩ := hd
      by_cases hk : k = key
      · subst hk
        simp [mapSet] at h
        rcases h with h | h
        · right; simp [h]
        · left; simp [h]
      · simp [mapSet, hk] at h
        rcases h with h | h
        · left; simp [h]
        · rcases ih h with h2 | h2
          · left; simp [h2]
          · right; exact h2

theorem mapGet_eq_none_of_not_mem_keys {α : Type} {m : List (String × α)}
    {key : String} (h : key ∉ m.map Prod.fst) : mapGet m key = none := by
  induction m with
  | nil => simp [mapGet]
  | cons hd tl ih =>
      obtain ⟨k, w⟩ := hd
      simp only [List.map_cons, List.mem_cons, not_or] at h
      have hk : ¬ k = key := fun he => h.1 he.symm
      simp [mapGet, hk, ih h.2]

theorem mapGet_filter_some {α : Type} {m : List (String × α)} {key : String}
    {v : α} {p : String × α → Bool} (h : mapGet m key = some v)
    (hp : p (key, v) = true) : mapGet (m.filter p) key = some v := by
  induction m with
  | nil => simp [mapGet] at h
  | cons hd tl ih =>
      obtain ⟨k, w⟩ := hd
      by_cases hk : k = key
      · subst hk
        simp [mapGet] at h
        subst h
        simp [List.filter_cons, hp, mapGet]
      · simp [mapGet, hk] at h
        by_cases hq : p (k, w) <;> simp [List.filter_cons, hq, mapGet, hk, ih h]

theorem mapGet_filter_none_of_none {α : Type} {m : List (String × α)}
    {key : String} {p : String × α → Bool} (h : mapGet m key = none) :
    mapGet (m.filter p) key = none := by
  induction m with
  | nil => simp [mapGet]
  | cons hd tl ih =>
      obtain ⟨k, w⟩ := hd
      by_cases hk : k = key
      · simp [mapGet, hk] at h
      · simp [mapGet, hk] at h
        by_cases hq : p (k, w) <;> simp [List.filter_cons, hq, mapGet, hk, ih h]

theorem mapGet_filter_none_of_nodup {α : Type} {m : List (String × α)}
    {key : String} {v : α} {p : String × α → Bool}
    (hnd : (m.map Prod.fst).Nodup) (h : mapGet m key = some v)
    (hp : p (key, v) = false) : mapGet (m.filter p) key = none := by
  induction m with
  | nil => simp [mapGet] at h
  | cons hd tl ih =>
      obtain ⟨k, w⟩ := hd
      simp only [List.map_cons, List.nodup_cons] at hnd
      by_cases hk : k = key
      · subst hk
        simp [mapGet] at h
        subst h
        simp [List.filter_cons, hp]
        exact mapGet_filter_none_of_none (mapGet_eq_none_of_not_mem_keys hnd.1)
      · simp [mapGet, hk] at h
        by_cases hq : p (k, w) <;>
          simp [List.filter_cons, hq, mapGet, hk, ih hnd.2 h]

/-! ## Reuse-loop and sweep lemmas -/

theorem findLive_eq_none_iff {fp : String} {now : Nat} {s : Store} :
    findLive fp now s = none ↔ ∀ kv ∈ s, liveFor fp now kv = false := by
  induction s with
  | nil => simp [findLive]
  | cons hd tl ih =>
      obtain ⟨k, sess⟩ := hd
      by_cases h : sess.fingerprint = fp ∧ now < sess.expiresAt
      · simp [findLive, h, liveFor]
      · simp [findLive, h, liveFor, ih]
        intro _ hfp
        exact Nat.le_of_not_lt (fun hlt => h ⟨hfp, hlt⟩)

theorem countLive_eq_zero_iff {fp : String} {now : Nat} {s : Store} :
    countLive fp now s = 0 ↔ ∀ kv ∈ s, liveFor fp now kv = false := by
  simp [countLive, List.length_eq_zero, List.filter_eq_nil_iff]

theorem findLive_mapSet_self {fp : String} {now : Nat} {s : Store}
    {key : String} {sess : Session}
    (h0 : ∀ kv ∈ s, liveFor fp now kv = false)
    (hp : liveFor fp now (key, sess) = true) :
    findLive fp now (mapSet s key sess) = some (key, sess) := by
  have hpP : sess.fingerprint = fp ∧ now < sess.expiresAt := by
    simpa [liveFor] using hp
  induction s with
  | nil => simp [mapSet, findLive, hpP]
  | cons hd tl ih =>
      obtain ⟨k, w⟩ := hd
      have hw : ¬ (w.fingerprint = fp ∧ now < w.expiresAt) := by
        have := h0 (k, w) (by simp)
        simpa [liveFor] using this
      by_cases hk : k = key
      · subst hk
        simp [mapSet, findLive, hpP]
      · simp only [mapSet, if_neg hk]
        simp [findLive, hw]
        exact ih (fun kv hkv => h0 kv (by simp [hkv]))

theorem countLive_mapSet_of_zero {fp : String} {now : Nat} {s : Store}
    {key : String} {sess : Session}
    (h0 : ∀ kv ∈ s, liveFor fp now kv = false)
    (hp : liveFor fp now (key, sess) = true) :
    countLive fp now (mapSet s key sess) = 1 := by
  induction s with
  | nil => simp [mapSet, countLive, List.filter_cons, hp]
  | cons hd tl ih =>
      obtain ⟨k, w⟩ := hd
      have hw : liveFor fp now (k, w) = false := h0 (k, w) (by simp)
      have htl : ∀ kv ∈ tl, liveFor fp now kv = false :=
        fun kv hkv => h0 kv (by simp [hkv])
      by_cases hk : k = key
      · subst hk
        have htl0 : (tl.filter (liveFor fp now)).length = 0 := by
          rw [List.length_eq_zero, List.filter_eq_nil_iff]
          intro kv hkv
          simp [htl kv hkv]
        simp [mapSet, countLive, List.filter_cons, hp, htl0]
      · simp only [mapSet, if_neg hk]
        simp [countLive, List.filter_cons, hw]
        simpa [countLive] using ih htl

theorem countLive_mapSet_le_of_false {fp : String} {now : Nat} {s : Store}
    {key : String} {sess : Session}
    (hp : liveFor fp now (key, sess) = false) :
    countLive fp now (mapSet s key sess) ≤ countLive fp now s := by
  induction s with
  | nil => simp [mapSet, countLive, List.filter_cons, hp]
  | cons hd tl ih =>
      obtain ⟨k, w⟩ := hd
      by_cases hk : k = key
      · subst hk
        by_cases hw : liveFor fp now (k, w) = true
        · simp only [mapSet, if_pos rfl]
          simp [countLive, List.filter_cons, hp, hw]
        · simp only [mapSet, if_pos rfl]
          simp [countLive, List.filter_cons, hp, hw]
      · by_cases hw : liveFor fp now (k, w) = true
        · simp only [mapSet, if_neg hk]
          simp [countLive, List.filter_cons, hw]
          simpa [countLive] using ih
        · simp only [mapSet, if_neg hk]
          simp [countLive, List.filter_cons, hw]
          simpa [countLive] using ih

theorem cleanup_eq_self_of_all {now : Nat} {s : Store}
    (h : ∀ kv ∈ s, now ≤ kv.2.expiresAt) :
    cleanupExpiredSessions now s = s := by
  simp only [cleanupExpiredSessions]
  rw [List.filter_eq_self]
  intro kv hkv
  simpa using h kv hkv

theorem mem_cleanup {now : Nat} {s : Store} {kv : String × Session}
    (h : kv ∈ cleanupExpiredSessions now s) :
    kv ∈ s ∧ now ≤ kv.2.expiresAt := by
  have := List.mem_filter.mp h
  exact ⟨this.1, by simpa using this.2⟩

theorem cleanup_idem {now : Nat} {s : Store} :
    cleanupExpiredSessions now (cleanupExpiredSessions now s) =
      cleanupExpiredSessions now s :=
  cleanup_eq_self_of_all (fun _ hkv => (mem_cleanup hkv).2)

/-! ## Claim-branch lemmas -/

theorem claimHandler_capacity {now : Nat} {fp nk : String} {s : Store}
    (h : MAX_SESSIONS ≤ (cleanupExpiredSessions now s).length) :
    claimHandler now fp nk s = (.capacity, cleanupExpiredSessions now s) := by
  simp [claimHandler, h]

theorem claimHandler_reuse {now : Nat} {fp nk k : String} {sess : Session}
    {s : Store}
    (hlen : (cleanupExpiredSessions now s).length < MAX_SESSIONS)
    (hfind : findLive fp now (cleanupExpiredSessions now s) = some (k, sess)) :
    claimHandler now fp nk s =
      (.reused k sess.expiresAt, cleanupExpiredSessions now s) := by
  simp [claimHandler, Nat.not_le.mpr hlen, hfind]

theorem claimHandler_created {now : Nat} {fp nk : String} {s : Store}
    (hlen : (cleanupExpiredSessions now s).length < MAX_SESSIONS)
    (hfind : findLive fp now (cleanupExpiredSessions now s) = none) :
    claimHandler now fp nk s =
      (.created nk (now + SESSION_TIMEOUT),
        mapSet (cleanupExpiredSessions now s) nk
          { fingerprint := fp, createdAt := now,
            expiresAt := now + SESSION_TIMEOUT, lastHeartbeat := now,
            claimed := true }) := by
  simp [claimHandler, Nat.not_le.mpr hlen, hfind]

/-! ## C1 -/

/-- C1 (counterexample). The claim says a Claim whose fingerprint matches a
live session succeeds with that session's key regardless of table size. In
`fullStore` — 100 live sessions, exactly one of them with fingerprint
`fp0` — a Claim for `fp0` at instant 5 is rejected with `CapacityExceeded`
(HTTP 429): the code checks capacity before the reuse loop. -/
theorem claim_reuse_at_capacity_counterexample :
    fullStore.length = MAX_SESSIONS ∧
    countLive "fp0" 5 fullStore = 1 ∧
    (claimHandler 5 "fp0" "fresh" fullStore).1 = ClaimResponse.capacity ∧
    ClaimResponse.status (claimHandler 5 "fp0" "fresh" fullStore).1 = 429 := by
  decide

/-- C1 (amended). The capacity check precedes the reuse loop, so below
capacity a Claim whose fingerprint matches a live session returns that
session's key with the store unchanged, and repeated Claims with one
fingerprint return the same key keeping exactly one live session for it —
but at `MAX_SESSIONS` swept sessions the Claim is rejected with
`CapacityExceeded` even when a live session with the fingerprint exists. -/
theorem claim_reuse_below_capacity (now : Nat) (fp nk nk2 : String) (s : Store) :
    (MAX_SESSIONS ≤ (cleanupExpiredSessions now s).length →
      (claimHandler now fp nk s).1 = ClaimResponse.capacity) ∧
    (∀ k sess, (cleanupExpiredSessions now s).length < MAX_SESSIONS →
      findLive fp now (cleanupExpiredSessions now s) = some (k, sess) →
      claimHandler now fp nk s =
        (ClaimResponse.reused k sess.expiresAt, cleanupExpiredSessions now s)) ∧
    (countLive fp now (cleanupExpiredSessions now s) = 0 →
      (cleanupExpiredSessions now s).length + 1 < MAX_SESSIONS →
      (claimHandler now fp nk s).1 = ClaimResponse.created nk (now + SESSION_TIMEOUT) ∧
      countLive fp now (claimHandler now fp nk s).2 = 1 ∧
      claimHandler now fp nk2 (claimHandler now fp nk s).2 =
        (ClaimResponse.reused nk (now + SESSION_TIMEOUT),
          (claimHandler now fp nk s).2) ∧
      countLive fp now (claimHandler now fp nk2 (claimHandler now fp nk s).2).2 = 1) := by
  refine ⟨fun h => by rw [claimHandler_capacity h],
    fun k sess hlen hf => claimHandler_reuse hlen hf, fun h0 hlen => ?_⟩
  have hall0 : ∀ kv ∈ cleanupExpiredSessions now s, liveFor fp now kv = false :=
    countLive_eq_zero_iff.mp h0
  have hfind : findLive fp now (cleanupExpiredSessions now s) = none :=
    findLive_eq_none_iff.mpr hall0
  have hlen1 : (cleanupExpiredSessions now s).length < MAX_SESSIONS := by omega
  have hc := @claimHandler_created now fp nk _ hlen1 hfind
  rw [hc]
  set newSess : Session :=
    { fingerprint := fp, createdAt := now, expiresAt := now + SESSION_TIMEOUT,
      lastHeartbeat := now, claimed := true } with hnew
  set s2 : Store := mapSet (cleanupExpiredSessions now s) nk newSess with hs2
  have hp : liveFor fp now (nk, newSess) = true := by
    simp [liveFor, hnew, SESSION_TIMEOUT]
  have hcount2 : countLive fp now s2 = 1 := countLive_mapSet_of_zero hall0 hp
  have hall2 : ∀ kv ∈ s2, now ≤ kv.2.expiresAt := by
    intro kv hkv
    rcases mem_mapSet hkv with h | h
    · exact (mem_cleanup h).2
    · subst h
      simp [hnew]
  have hclean2 : cleanupExpiredSessions now s2 = s2 := cleanup_eq_self_of_all hall2
  have hlen2 : (cleanupExpiredSessions now s2).length < MAX_SESSIONS := by
    rw [hclean2]
    have := length_mapSet_le (cleanupExpiredSessions now s) nk newSess
    rw [hs2] at *
    omega
  have hfind2 : findLive fp now (cleanupExpiredSessions now s2) = some (nk, newSess) := by
    rw [hclean2]
    exact findLive_mapSet_self hall0 hp
  have hr2 := @claimHandler_reuse now fp nk2 nk newSess _ hlen2 hfind2
  rw [hclean2] at hr2
  refine ⟨rfl, hcount2, ?_, ?_⟩
  · rw [hr2]
  · rw [hr2]
    exact hcount2

/-- C1 (witness). The amended theorem at `now = 0`, fingerprint `f`, fresh
keys `a` and `b`, and the empty store: the first Claim creates `a`, the
second returns `a` again, one live session for `f` throughout. -/
theorem claim_reuse_below_capacity_witness :
    (claimHandler 0 "f" "a" []).1 = ClaimResponse.created "a" (0 + SESSION_TIMEOUT) ∧
    claimHandler 0 "f" "b" (claimHandler 0 "f" "a" []).2 =
      (ClaimResponse.reused "a" (0 + SESSION_TIMEOUT), (claimHandler 0 "f" "a" []).2) := by
  have h := (claim_reuse_below_capacity 0 "f" "a" "b" []).2.2 (by decide) (by decide)
  exact ⟨h.1, h.2.2.1⟩

/-! ## C2 -/

/-- C2 (counterexample). At the boundary instant `now = expiresAt = 100`
the session in `boundaryStore` is non-expired (the sweep keeps it, since
only `now > expiresAt` expires) but the reuse loop requires the strict
`now < expiresAt`, so a Claim with the same fingerprint inserts a second
session: afterwards two non-expired sessions share fingerprint `fp`. -/
theorem claim_duplicate_at_boundary_counterexample :
    countNonExpired "fp" 100 (cleanupExpiredSessions 100 boundaryStore) = 1 ∧
    (claimHandler 100 "fp" "k2" boundaryStore).1 =
      ClaimResponse.created "k2" (100 + SESSION_TIMEOUT) ∧
    countNonExpired "fp" 100 (claimHandler 100 "fp" "k2" boundaryStore).2 = 2 := by
  decide

/-- C2 (amended). With live meaning the reuse loop's strict
`now < expiresAt`: a Claim creates a new session only when no live session
with its fingerprint is present after the sweep, and Claim preserves the
invariant that at most one live session exists per fingerprint. (At the
boundary `expiresAt = now` a non-expired but non-live session can be
duplicated, per the counterexample.) -/
theorem claim_preserves_live_uniqueness (now : Nat) (fp nk : String) (s : Store) :
    (∀ k e, (claimHandler now fp nk s).1 = ClaimResponse.created k e →
      countLive fp now (cleanupExpiredSessions now s) = 0) ∧
    ((∀ g, countLive g now (cleanupExpiredSessions now s) ≤ 1) →
      ∀ g, countLive g now (claimHandler now fp nk s).2 ≤ 1) := by
  constructor
  · intro k e h
    by_cases hcap : MAX_SESSIONS ≤ (cleanupExpiredSessions now s).length
    · rw [claimHandler_capacity hcap] at h
      simp at h
    · have hlen := Nat.not_le.mp hcap
      cases hfind : findLive fp now (cleanupExpiredSessions now s) with
      | none =>
          exact countLive_eq_zero_iff.mpr (findLive_eq_none_iff.mp hfind)
      | some kv =>
          obtain ⟨k2, sess⟩ := kv
          rw [claimHandler_reuse hlen hfind] at h
          simp at h
  · intro hinv g
    by_cases hcap : MAX_SESSIONS ≤ (cleanupExpiredSessions now s).length
    · rw [claimHandler_capacity hcap]
      exact hinv g
    · have hlen := Nat.not_le.mp hcap
      cases hfind : findLive fp now (cleanupExpiredSessions now s) with
      | none =>
          set newSess : Session :=
            { fingerprint := fp, createdAt := now,
              expiresAt := now + SESSION_TIMEOUT, lastHeartbeat := now,
              claimed := true } with hnew
          rw [claimHandler_created hlen hfind]
          show countLive g now (mapSet (cleanupExpiredSessions now s) nk newSess) ≤ 1
          by_cases hg : liveFor g now (nk, newSess) = true
          · have hgfp : g = fp := by
              have := of_decide_eq_true hg
              exact this.1.symm
            subst hgfp
            have hall0 : ∀ kv ∈ cleanupExpiredSessions now s,
                liveFor g now kv = false := findLive_eq_none_iff.mp hfind
            have h1 := countLive_mapSet_of_zero hall0 hg
            omega
          · have hle := @countLive_mapSet_le_of_false g now
              (cleanupExpiredSessions now s) nk newSess
              (eq_false_of_ne_true hg)
            exact le_trans hle (hinv g)
      | some kv =>
          obtain ⟨k2, sess⟩ := kv
          rw [claimHandler_reuse hlen hfind]
          exact hinv g

/-- C2 (witness). The amended theorem at the empty store and fingerprint
`f`: the Claim that creates key `a` indeed found no live session, and
uniqueness is preserved. -/
theorem claim_preserves_live_uniqueness_witness :
    countLive "f" 0 (cleanupExpiredSessions 0 []) = 0 ∧
    countLive "f" 0 (claimHandler 0 "f" "a" []).2 ≤ 1 :=
  ⟨(claim_preserves_live_uniqueness 0 "f" "a" []).1 "a" (0 + SESSION_TIMEOUT)
      (by decide),
    (claim_preserves_live_uniqueness 0 "f" "a" []).2
      (fun g => by simp [cleanupExpiredSessions, countLive]) "f"⟩

/-! ## C3 -/

/-- C3 (counterexample). The claim says the capacity check counts all table
entries including expired-but-unswept ones (check-then-sweep), so a Claim
at raw table size `MAX_SESSIONS` fails. In `mixedStore` the raw size is 100
with only one non-expired session, and the Claim succeeds: the handler
sweeps before checking. -/
theorem claim_checks_swept_size_counterexample :
    mixedStore.length = MAX_SESSIONS ∧
    nonExpiredCount 1000 mixedStore = 1 ∧
    (claimHandler 1000 "fpNew" "nk" mixedStore).1 =
      ClaimResponse.created "nk" (1000 + SESSION_TIMEOUT) := by
  decide

/-- C3 (amended). `cleanupExpiredSessions` runs before the capacity check
(sweep-then-check), so the check sees only non-expired sessions: a Claim is
rejected with `CapacityExceeded` exactly when at least `MAX_SESSIONS`
non-expired sessions exist, and with `MAX_SESSIONS − 1` non-expired
sessions and no live session for the fingerprint the Claim succeeds. A
rejection with fewer than `MAX_SESSIONS` non-expired sessions is
impossible. -/
theorem claim_capacity_iff_swept_size (now : Nat) (fp nk : String) (s : Store) :
    ((claimHandler now fp nk s).1 = ClaimResponse.capacity ↔
      MAX_SESSIONS ≤ nonExpiredCount now s) ∧
    (nonExpiredCount now s = MAX_SESSIONS - 1 →
      findLive fp now (cleanupExpiredSessions now s) = none →
      (claimHandler now fp nk s).1 = ClaimResponse.created nk (now + SESSION_TIMEOUT)) := by
  constructor
  · constructor
    · intro h
      by_contra hc
      have hlen : (cleanupExpiredSessions now s).length < MAX_SESSIONS :=
        Nat.not_le.mp hc
      cases hfind : findLive fp now (cleanupExpiredSessions now s) with
      | none =>
          rw [claimHandler_created hlen hfind] at h
          simp at h
      | some kv =>
          obtain ⟨k2, sess⟩ := kv
          rw [claimHandler_reuse hlen hfind] at h
          simp at h
    · intro h
      rw [claimHandler_capacity h]
  · intro hlen hfind
    have hmax : MAX_SESSIONS = 100 := rfl
    have hlen2 : (cleanupExpiredSessions now s).length < MAX_SESSIONS := by
      have : nonExpiredCount now s = (cleanupExpiredSessions now s).length := rfl
      omega
    rw [claimHandler_created hlen2 hfind]

/-- C3 (witness). At `store99` — 99 live sessions, one below capacity — a
Claim with a fresh fingerprint succeeds, and at `fullStore` — 100 swept
sessions — the rejection is exactly the capacity case. -/
theorem claim_capacity_iff_swept_size_witness :
    (claimHandler 5 "zz" "nk" store99).1 =
      ClaimResponse.created "nk" (5 + SESSION_TIMEOUT) ∧
    (claimHandler 5 "zz" "nk" fullStore).1 = ClaimResponse.capacity :=
  ⟨(claim_capacity_iff_swept_size 5 "zz" "nk" store99).2 (by decide) (by decide),
    (claim_capacity_iff_swept_size 5 "zz" "nk" fullStore).1.mpr (by decide)⟩

/-! ## C4 -/

/-- C4. Heartbeat on a key whose `expiresAt` has passed (`now > expiresAt`)
answers `NotFound` (HTTP 404): the sweep at the top of the handler removes
the entry before the lookup, so the entry is gone from the store and any
subsequent Heartbeat on the same key answers `NotFound` as well. -/
theorem heartbeat_expired_notFound (now now2 : Nat) (key fp fp2 : String)
    (s : Store) (sess : Session)
    (hnd : (s.map Prod.fst).Nodup)
    (hget : mapGet s key = some sess)
    (hexp : sess.expiresAt < now) :
    heartbeatHandler now (some key) fp s =
      (.notFound, cleanupExpiredSessions now s) ∧
    mapGet (cleanupExpiredSessions now s) key = none ∧
    (heartbeatHandler now2 (some key) fp2
        (heartbeatHandler now (some key) fp s).2).1 = HeartbeatResponse.notFound ∧
    HeartbeatResponse.status .notFound = 404 := by
  have hnone : mapGet (cleanupExpiredSessions now s) key = none := by
    apply mapGet_filter_none_of_nodup hnd hget
    simp only [decide_eq_false_iff_not, Nat.not_le]
    exact hexp
  have h1 : heartbeatHandler now (some key) fp s =
      (.notFound, cleanupExpiredSessions now s) := by
    simp [heartbeatHandler, hnone]
  have hnone2 :
      mapGet (cleanupExpiredSessions now2 (cleanupExpiredSessions now s)) key = none :=
    mapGet_filter_none_of_none hnone
  refine ⟨h1, hnone, ?_, rfl⟩
  rw [h1]
  simp [heartbeatHandler, hnone2]

/-- C4 (witness). A store holding one session for key `k` expired at 10:
Heartbeat at instant 50 answers `NotFound`, the entry is purged, and the
Heartbeat at instant 60 answers `NotFound` again. -/
theorem heartbeat_expired_notFound_witness :
    heartbeatHandler 50 (some "k") "f"
        [("k", { fingerprint := "f", createdAt := 0, expiresAt := 10,
                 lastHeartbeat := 0, claimed := true })] =
      (.notFound, cleanupExpiredSessions 50
        [("k", { fingerprint := "f", createdAt := 0, expiresAt := 10,
                 lastHeartbeat := 0, claimed := true })]) ∧
    mapGet (cleanupExpiredSessions 50
        [("k", { fingerprint := "f", createdAt := 0, expiresAt := 10,
                 lastHeartbeat := 0, claimed := true })]) "k" = none :=
  ⟨(heartbeat_expired_notFound 50 60 "k" "f" "f" _
      { fingerprint := "f", createdAt := 0, expiresAt := 10,
        lastHeartbeat := 0, claimed := true }
      (by decide) (by decide) (by decide)).1,
    (heartbeat_expired_notFound 50 60 "k" "f" "f" _
      { fingerprint := "f", createdAt := 0, expiresAt := 10,
        lastHeartbeat := 0, claimed := true }
      (by decide) (by decide) (by decide)).2.1⟩

/-! ## C5 -/

/-- C5. Heartbeat and Release with a present, live key but a fingerprint
differing from the session's stored one answer `FingerprintMismatch`
(HTTP 403), and the store after the call is exactly the swept store with
the session entry unchanged: not deleted, `expiresAt` and `lastHeartbeat`
untouched. -/
theorem heartbeat_release_mismatch_frame (now : Nat) (key fp : String)
    (s : Store) (sess : Session)
    (hget : mapGet s key = some sess)
    (hlive : now ≤ sess.expiresAt)
    (hfp : sess.fingerprint ≠ fp) :
    heartbeatHandler now (some key) fp s =
      (.mismatch, cleanupExpiredSessions now s) ∧
    releaseHandler now (some key) fp s =
      (.mismatch, cleanupExpiredSessions now s) ∧
    mapGet (cleanupExpiredSessions now s) key = some sess ∧
    HeartbeatResponse.status .mismatch = 403 ∧
    ReleaseResponse.status .mismatch = 403 := by
  have hsome : mapGet (cleanupExpiredSessions now s) key = some sess := by
    apply mapGet_filter_some hget
    simpa using hlive
  refine ⟨?_, ?_, hsome, rfl, rfl⟩
  · simp [heartbeatHandler, hsome, hfp]
  · simp [releaseHandler, hsome, hfp]

/-- C5 (witness). A live session for key `k` with fingerprint `f`,
addressed with fingerprint `g`: both Heartbeat and Release answer the
mismatch and the entry is unchanged. -/
theorem heartbeat_release_mismatch_frame_witness :
    heartbeatHandler 5 (some "k") "g"
        [("k", { fingerprint := "f", createdAt := 0, expiresAt := 100,
                 lastHeartbeat := 0, claimed := true })] =
      (.mismatch, cleanupExpiredSessions 5
        [("k", { fingerprint := "f", createdAt := 0, expiresAt := 100,
                 lastHeartbeat := 0, claimed := true })]) ∧
    mapGet (cleanupExpiredSessions 5
        [("k", { fingerprint := "f", createdAt := 0, expiresAt := 100,
                 lastHeartbeat := 0, claimed := true })]) "k" =
      some { fingerprint := "f", createdAt := 0, expiresAt := 100,
             lastHeartbeat := 0, claimed := true } :=
  ⟨(heartbeat_release_mismatch_frame 5 "k" "g" _
      { fingerprint := "f", createdAt := 0, expiresAt := 100,
        lastHeartbeat := 0, claimed := true }
      (by decide) (by decide) (by decide)).1,
    (heartbeat_release_mismatch_frame 5 "k" "g" _
      { fingerprint := "f", createdAt := 0, expiresAt := 100,
        lastHeartbeat := 0, claimed := true }
      (by decide) (by decide) (by decide)).2.2.1⟩

/-! ## Rate-limiter lemmas -/

theorem iterCheck_closed (now : Nat) (identifier : String) :
    ∀ j, j ≤ RATE_LIMIT →
      iterCheck now identifier j =
        if j = 0 then []
        else [(identifier, { count := j, resetAt := now + RATE_WINDOW })] := by
  have hnw : ¬ now > now + RATE_WINDOW := by
    simp only [RATE_WINDOW]
    omega
  intro j hle
  induction j with
  | zero => simp [iterCheck]
  | succ n ih =>
      have hn : n ≤ RATE_LIMIT := Nat.le_of_succ_le hle
      rw [iterCheck, ih hn]
      by_cases h0 : n = 0
      · subst h0
        simp [checkRateLimit, mapGet, mapSet, RATE_LIMIT, hnw]
      · have hcnt : ¬ n ≥ RATE_LIMIT := by
          simp only [RATE_LIMIT] at hle ⊢
          omega
        simp [checkRateLimit, mapGet, mapSet, h0, hnw, hcnt]

theorem checkRateLimit_count_le (now : Nat) (identifier : String) (m : RLState)
    (hm : ∀ id w, mapGet m id = some w → w.count ≤ RATE_LIMIT) :
    ∀ id w, mapGet (checkRateLimit now identifier m).2 id = some w →
      w.count ≤ RATE_LIMIT := by
  intro id w hw
  rcases hs : mapGet m identifier with _ | w0
  · have hnw : ¬ now > now + RATE_WINDOW := by
      simp only [RATE_WINDOW]
      omega
    simp [checkRateLimit, hs, hnw, RATE_LIMIT] at hw
    rw [mapGet_mapSet] at hw
    by_cases hid : identifier = id
    · rw [if_pos hid] at hw
      cases hw
      simp [RATE_LIMIT]
    · rw [if_neg hid] at hw
      exact hm id w hw
  · by_cases hreset : now > w0.resetAt
    · simp [checkRateLimit, hs, hreset, RATE_LIMIT] at hw
      rw [mapGet_mapSet] at hw
      by_cases hid : identifier = id
      · rw [if_pos hid] at hw
        cases hw
        simp [RATE_LIMIT]
      · rw [if_neg hid] at hw
        exact hm id w hw
    · by_cases hcnt : w0.count ≥ RATE_LIMIT
      · simp [checkRateLimit, hs, hreset, hcnt] at hw
        rw [mapGet_mapSet] at hw
        by_cases hid : identifier = id
        · rw [if_pos hid] at hw
          cases hw
          exact hm identifier _ hs
        · rw [if_neg hid] at hw
          exact hm id w hw
      · simp [checkRateLimit, hs, hreset, hcnt] at hw
        rw [mapGet_mapSet] at hw
        by_cases hid : identifier = id
        · rw [if_pos hid] at hw
          cases hw
          have := hm identifier w0 hs
          simp only [RATE_LIMIT] at *
          omega
        · rw [if_neg hid] at hw
          exact hm id w hw

/-! ## C6 -/

/-- C6. The fixed-window limiter admits exactly `RATE_LIMIT` calls in one
window: from the empty map, the first 10 calls for an identifier return
`true`, the 11th returns `false` and leaves the map unchanged (no
increment); the first call with `now > resetAt` returns `true` storing
`count = 1` and `resetAt = now + RATE_WINDOW`; and in every reachable map
no counter exceeds `RATE_LIMIT`. -/
theorem rateLimit_window_behavior (now now2 : Nat) (identifier : String) :
    (∀ j, j < RATE_LIMIT →
      (checkRateLimit now identifier (iterCheck now identifier j)).1 = true) ∧
    (checkRateLimit now identifier (iterCheck now identifier RATE_LIMIT)).1 = false ∧
    (checkRateLimit now identifier (iterCheck now identifier RATE_LIMIT)).2 =
      iterCheck now identifier RATE_LIMIT ∧
    (∀ m w, mapGet m identifier = some w → w.resetAt < now2 →
      checkRateLimit now2 identifier m =
        (true, mapSet m identifier { count := 1, resetAt := now2 + RATE_WINDOW })) ∧
    (∀ m, RLReachable m → ∀ id w, mapGet m id = some w → w.count ≤ RATE_LIMIT) := by
  have hnw : ¬ now > now + RATE_WINDOW := by
    simp only [RATE_WINDOW]
    omega
  have h10 := iterCheck_closed now identifier RATE_LIMIT (le_refl _)
  refine ⟨?_, ?_, ?_, ?_, ?_⟩
  · intro j hj
    rw [iterCheck_closed now identifier j (le_of_lt hj)]
    by_cases h0 : j = 0
    · subst h0
      simp [checkRateLimit, mapGet, RATE_LIMIT, hnw]
    · have hcnt : ¬ j ≥ RATE_LIMIT := Nat.not_le.mpr hj
      simp [checkRateLimit, mapGet, h0, hnw, hcnt]
  · rw [h10]
    simp [checkRateLimit, mapGet, RATE_LIMIT, hnw]
  · rw [h10]
    simp [checkRateLimit, mapGet, mapSet, RATE_LIMIT, hnw]
  · intro m w hm hr
    simp [checkRateLimit, hm, hr, RATE_LIMIT]
  · intro m h
    induction h with
    | init =>
        intro id w hw
        simp [mapGet] at hw
    | step n2 id2 m2 _ ih => exact checkRateLimit_count_le n2 id2 m2 ih

/-- C6 (witness). Concrete window for identifier `x`: the first call from
the empty map is admitted; a stored window `{count 3, resetAt 5}` checked
at instant 10 is reset and admitted with `count = 1`; and the map reached
by one call from the empty map keeps its counter within the limit. -/
theorem rateLimit_window_behavior_witness :
    (checkRateLimit 0 "x" (iterCheck 0 "x" 0)).1 = true ∧
    checkRateLimit 10 "x" [("x", { count := 3, resetAt := 5 })] =
      (true, mapSet [("x", { count := 3, resetAt := 5 })] "x"
        { count := 1, resetAt := 10 + RATE_WINDOW }) ∧
    ({ count := 1, resetAt := 60000 } : RateWindow).count ≤ RATE_LIMIT := by
  refine ⟨(rateLimit_window_behavior 0 10 "x").1 0 (by decide),
    (rateLimit_window_behavior 0 10 "x").2.2.2.1
      [("x", { count := 3, resetAt := 5 })] { count := 3, resetAt := 5 }
      (by decide) (by decide),
    (rateLimit_window_behavior 0 10 "x").2.2.2.2
      (checkRateLimit 0 "x" []).2 (RLReachable.step 0 "x" [] RLReachable.init)
      "x" { count := 1, resetAt := 60000 } (by decide)⟩

/-! ## C7 -/

/-- C7. The vision endpoint rejects a missing or invalid session with 401
without ever consulting the rate limiter (hence without touching the model),
rejects a rate-limited request with 429 before the model, and reaches the
model only after the session validated and the limiter admitted the call. -/
theorem vision_authorization_order (now : Nat) (sessionKey : Option String)
    (fp clientId : String) (hasImage : Bool) (s : Store) (m : RLState) :
    (sessionKey = none →
      visionHandler now sessionKey fp clientId hasImage s m =
        { status := 401, rateLimiterCalled := false, modelCalled := false,
          sessions := s, limits := m }) ∧
    (∀ key, sessionKey = some key →
      (validateSession key fp now s).1 ≠ ValidateResult.valid →
      (visionHandler now sessionKey fp clientId hasImage s m).status = 401 ∧
      (visionHandler now sessionKey fp clientId hasImage s m).rateLimiterCalled = false ∧
      (visionHandler now sessionKey fp clientId hasImage s m).modelCalled = false) ∧
    (∀ key, sessionKey = some key →
      (validateSession key fp now s).1 = ValidateResult.valid →
      (checkRateLimit now clientId m).1 = false →
      (visionHandler now sessionKey fp clientId hasImage s m).status = 429 ∧
      (visionHandler now sessionKey fp clientId hasImage s m).modelCalled = false) ∧
    ((visionHandler now sessionKey fp clientId hasImage s m).modelCalled = true →
      (visionHandler now sessionKey fp clientId hasImage s m).rateLimiterCalled = true ∧
      (checkRateLimit now clientId m).1 = true ∧
      (visionHandler now sessionKey fp clientId hasImage s m).status = 200) := by
  refine ⟨?_, ?_, ?_, ?_⟩
  · intro h
    subst h
    rfl
  · intro key hk hval
    subst hk
    rcases hv : validateSession key fp now s with ⟨verdict, s2⟩
    rw [hv] at hval
    simp only at hval
    simp [visionHandler, hv, hval]
  · intro key hk hval hrl
    subst hk
    rcases hv : validateSession key fp now s with ⟨verdict, s2⟩
    rw [hv] at hval
    simp only at hval
    rcases hr : checkRateLimit now clientId m with ⟨ok, m2⟩
    rw [hr] at hrl
    simp only at hrl
    subst hval
    subst hrl
    simp [visionHandler, hv, hr]
  · intro hmc
    cases hsk : sessionKey with
    | none =>
        rw [hsk] at hmc
        simp [visionHandler] at hmc
    | some key =>
        rw [hsk] at hmc
        rcases hv : validateSession key fp now s with ⟨verdict, s2⟩
        by_cases hval : verdict = ValidateResult.valid
        · subst hval
          rcases hr : checkRateLimit now clientId m with ⟨ok, m2⟩
          cases ok with
          | false => simp [visionHandler, hv, hr] at hmc
          | true =>
              cases hasImage with
              | false => simp [visionHandler, hv, hr] at hmc
              | true =>
                  refine ⟨?_, rfl, ?_⟩
                  · simp [visionHandler, hv, hr]
                  · simp [visionHandler, hv, hr]
        · simp [visionHandler, hv, hval] at hmc

/-- C7 (witness). With no session key the handler answers 401 without
calling the rate limiter; with a valid session whose client identifier is
already at the limit, the handler answers 429 without the model. -/
theorem vision_authorization_order_witness :
    visionHandler 5 none "f" "c" true [] [] =
      { status := 401, rateLimiterCalled := false, modelCalled := false,
        sessions := [], limits := [] } ∧
    (visionHandler 5 (some "k") "f" "c" true
        [("k", { fingerprint := "f", createdAt := 0, expiresAt := 100,
                 lastHeartbeat := 0, claimed := true })]
        [("c", { count := 10, resetAt := 100 })]).status = 429 :=
  ⟨(vision_authorization_order 5 none "f" "c" true [] []).1 rfl,
    ((vision_authorization_order 5 (some "k") "f" "c" true
        [("k", { fingerprint := "f", createdAt := 0, expiresAt := 100,
                 lastHeartbeat := 0, claimed := true })]
        [("c", { count := 10, resetAt := 100 })]).2.2.1 "k" rfl
      (by decide) (by decide)).1⟩

/-! ## C8 -/

/-- C8 (counterexample). The claim says a GET with no schedule file on disk
succeeds by falling back to the default schedule. The current handler
answers 500 with no document when the file is missing; only the legacy
handler falls back to the defaults. -/
theorem schedule_missing_file_counterexample :
    (scheduleHandler 1000 3600000 3600000 (fun l => l) Method.get
        FileState.missing).1 = 500 ∧
    legacyGetHandler FileState.missing =
      (200, FileState.legacyArr defaultSchedule, FileState.missing) :=
  ⟨rfl, rfl⟩

/-- C8 (amended). Only the legacy handler's GET falls back to the built-in
default schedule when the file is missing (or unreadable); the current
handler answers 500 exactly when the file is missing, unreadable or of an
unrecognized shape, and 200 otherwise. -/
theorem schedule_missing_file_behavior (now interval interval2 : Nat)
    (shuffled : List ScheduleEntry → List ScheduleEntry) :
    legacyGetHandler FileState.missing =
      (200, FileState.legacyArr defaultSchedule, FileState.missing) ∧
    legacyGetHandler FileState.unreadable =
      (200, FileState.legacyArr defaultSchedule, FileState.unreadable) ∧
    (scheduleHandler now interval interval2 shuffled Method.get
        FileState.missing).1 = 500 ∧
    (scheduleHandler now interval interval2 shuffled Method.get
        FileState.unreadable).1 = 500 ∧
    (scheduleHandler now interval interval2 shuffled Method.get
        FileState.badShape).1 = 500 ∧
    (∀ fs : FileState, fs ≠ FileState.missing → fs ≠ FileState.unreadable →
      fs ≠ FileState.badShape →
      (scheduleHandler now interval interval2 shuffled Method.get fs).1 = 200) := by
  refine ⟨rfl, rfl, rfl, rfl, rfl, ?_⟩
  intro fs h1 h2 h3
  cases fs with
  | missing => exact absurd rfl h1
  | unreadable => exact absurd rfl h2
  | badShape => exact absurd rfl h3
  | legacyArr items =>
      simp only [scheduleHandler, loadSchedule]
  | obj sched nextRefresh =>
      cases nextRefresh with
      | none => simp only [scheduleHandler, loadSchedule]
      | some n =>
          by_cases hn : n = 0
          · simp only [scheduleHandler, loadSchedule, hn, reduceIte]
          · simp only [scheduleHandler, loadSchedule, if_neg hn]

/-- C8 (witness). The amended theorem's 200-branch at a present legacy
file. -/
theorem schedule_missing_file_behavior_witness :
    (scheduleHandler 0 5 7 (fun l => l) Method.get
        (FileState.legacyArr defaultSchedule)).1 = 200 :=
  (schedule_missing_file_behavior 0 5 7 (fun l => l)).2.2.2.2.2
    (FileState.legacyArr defaultSchedule) (by simp) (by simp) (by simp)

/-! ## C9 -/

/-- C9. The current `loadSchedule` reads a legacy bare-array file as the
object shape: it returns the original entries with a fresh `nextRefresh`
and persists the file as exactly that object, so every `videoIndex`/`delay`
entry of the array survives the migration round-trip. -/
theorem legacy_array_migration_roundtrip (now interval : Nat)
    (items : List ScheduleEntry) :
    loadSchedule now interval (FileState.legacyArr items) =
      (some (items, now + interval),
        FileState.obj items (some (now + interval))) ∧
    (∀ e, e ∈ items →
      ∃ sched r, (loadSchedule now interval (FileState.legacyArr items)).2 =
          FileState.obj sched r ∧ e ∈ sched) :=
  ⟨rfl, fun _ he => ⟨items, some (now + interval), rfl, he⟩⟩

/-- C9 (witness). Migrating the two-entry default schedule keeps its first
entry. -/
theorem legacy_array_migration_roundtrip_witness :
    ∃ sched r, (loadSchedule 0 5 (FileState.legacyArr defaultSchedule)).2 =
        FileState.obj sched r ∧
      ({ videoIndex := 0, delay := 45000 } : ScheduleEntry) ∈ sched :=
  (legacy_array_migration_roundtrip 0 5 defaultSchedule).2
    { videoIndex := 0, delay := 45000 } (by decide)

/-! ## C10 -/

/-- C10. `generateFingerprint` hashes the undelimited concatenation
`ip + userAgent`, so any two requests with equal concatenations get the
identical digest — in particular the distinct pairs `("ab", "c")` and
`("a", "bc")` collide — and equal digests make claim, heartbeat, release
and validation behave identically for the two clients. -/
theorem fingerprint_concatenation_collision (hash : String → String) :
    (∀ ip1 ua1 ip2 ua2, ip1 ++ ua1 = ip2 ++ ua2 →
      generateFingerprint hash ip1 ua1 = generateFingerprint hash ip2 ua2) ∧
    generateFingerprint hash "ab" "c" = generateFingerprint hash "a" "bc" ∧
    (∀ now nk s, claimHandler now (generateFingerprint hash "ab" "c") nk s =
      claimHandler now (generateFingerprint hash "a" "bc") nk s) ∧
    (∀ now sk s, heartbeatHandler now sk (generateFingerprint hash "ab" "c") s =
      heartbeatHandler now sk (generateFingerprint hash "a" "bc") s) ∧
    (∀ now sk s, releaseHandler now sk (generateFingerprint hash "ab" "c") s =
      releaseHandler now sk (generateFingerprint hash "a" "bc") s) ∧
    (∀ key now s, validateSession key (generateFingerprint hash "ab" "c") now s =
      validateSession key (generateFingerprint hash "a" "bc") now s) := by
  have habc : ("ab" ++ "c" : String) = "a" ++ "bc" := by decide
  have hfp : generateFingerprint hash "ab" "c" = generateFingerprint hash "a" "bc" :=
    congrArg hash habc
  exact ⟨fun ip1 ua1 ip2 ua2 h => congrArg hash h, hfp,
    fun now nk s => by rw [hfp],
    fun now sk s => by rw [hfp],
    fun now sk s => by rw [hfp],
    fun key now s => by rw [hfp]⟩

/-- C10 (witness). The collision instantiated with a concrete digest
function. -/
theorem fingerprint_concatenation_collision_witness :
    generateFingerprint (fun x => x) "ab" "c" =
      generateFingerprint (fun x => x) "a" "bc" :=
  (fingerprint_concatenation_collision (fun x => x)).1 "ab" "c" "a" "bc"
    (by decide)

end Nakurity
